import Mathlib

/-!
Verification development for the `postgresql-interval` TypeScript library
(`src/interval.ts`).  JavaScript numbers are modelled as exact rationals
(`ℚ`); all inputs exercised here are short decimal literals, for which
JavaScript's binary floating point and exact rational arithmetic agree on
every intermediate value the library computes.  Strings are modelled as
`List Char` internally, converted to `String` at the public boundary.
-/

set_option maxRecDepth 100000

namespace PGInterval

/-! ## Kernel-computable rational arithmetic

The ambient library marks `Rat.add`, `Rat.mul`, `Rat.inv`, and `Rat.sub`
`@[irreducible]`, which blocks `decide`-style evaluation.  The embedding
therefore computes sums, products, and quotients of JavaScript numbers
through `mkRat`; the bridging lemmas `ratAdd_eq`, `ratMul_eq`,
`ratSub_eq`, `ratInv_eq`, `ratDiv_eq`, and `ratAbs_eq` (proved below)
show each wrapper IS the corresponding field operation on `ℚ`, so every
definition using them can be read as ordinary rational arithmetic. -/

def ratAdd (a b : ℚ) : ℚ := mkRat (a.num * b.den + b.num * a.den) (a.den * b.den)

def ratMul (a b : ℚ) : ℚ := mkRat (a.num * b.num) (a.den * b.den)

def ratSub (a b : ℚ) : ℚ := ratAdd a (-b)

def ratInv (a : ℚ) : ℚ :=
  if a.num < 0 then mkRat (-(a.den : ℤ)) a.num.natAbs else mkRat (a.den : ℤ) a.num.natAbs

def ratDiv (a b : ℚ) : ℚ := ratMul a (ratInv b)

def ratAbs (a : ℚ) : ℚ := if a < 0 then -a else a

/-! ## Constants (`interval.ts` lines 1-10) -/

def MICROSECONDS_PER_SECOND : ℚ := 1000000

def SECONDS_PER_MINUTE : ℚ := 60

def MINUTES_PER_HOUR : ℚ := 60

def HOURS_PER_DAY : ℚ := 24

def MONTHS_PER_YEAR : ℚ := 12

def MICROSECONDS_PER_MINUTE : ℚ := ratMul MICROSECONDS_PER_SECOND SECONDS_PER_MINUTE

def MICROSECONDS_PER_HOUR : ℚ := ratMul MICROSECONDS_PER_MINUTE MINUTES_PER_HOUR

def MICROSECONDS_PER_DAY : ℚ := ratMul MICROSECONDS_PER_HOUR HOURS_PER_DAY

def MICROSECONDS_PER_MILLISECOND : ℚ := 1000

/-! ## JavaScript numeric primitives

`Math.floor`, `Math.round` (round half toward positive infinity),
`Math.sign`, and the `%` operator (truncating remainder, sign of the
dividend). -/

def jsFloor (q : ℚ) : ℤ := ⌊q⌋

def jsTrunc (q : ℚ) : ℤ := if 0 ≤ q then ⌊q⌋ else ⌈q⌉

/-- `Math.round q = ⌊q + 1/2⌋`. -/
def jsRound (q : ℚ) : ℤ := ⌊ratAdd q (mkRat 1 2)⌋

/-- `a % b = a - b * trunc (a / b)`. -/
def jsMod (a b : ℚ) : ℚ := ratSub a (ratMul b (jsTrunc (ratDiv a b) : ℚ))

def jsSign (q : ℚ) : ℚ := if q < 0 then -1 else if 0 < q then 1 else 0

/-! ## Value model (`IntervalStorage`, lines 53-57) -/

structure IntervalStorage where
  months : ℚ
  days : ℚ
  microseconds : ℚ
deriving DecidableEq, Repr

def zeroStorage : IntervalStorage := ⟨0, 0, 0⟩

/-! ## Accumulator (lines 214-233) -/

def addMicroseconds (st : IntervalStorage) (m : ℚ) : IntervalStorage :=
  ⟨st.months, st.days, ratAdd st.microseconds (jsRound m : ℚ)⟩

def addMonths (st : IntervalStorage) (m : ℚ) : IntervalStorage :=
  ⟨ratAdd st.months m, st.days, st.microseconds⟩

def addDays (st : IntervalStorage) (d : ℚ) : IntervalStorage :=
  ⟨st.months, ratAdd st.days d, st.microseconds⟩

def addTime (st : IntervalStorage) (hours minutes seconds : ℚ) : IntervalStorage :=
  ⟨st.months, st.days,
    ratAdd st.microseconds
      (ratAdd (ratAdd (ratMul hours MICROSECONDS_PER_HOUR)
          (ratMul minutes MICROSECONDS_PER_MINUTE))
        (jsRound (ratMul seconds MICROSECONDS_PER_SECOND) : ℚ))⟩

def negateAllComponents (st : IntervalStorage) : IntervalStorage :=
  ⟨-st.months, -st.days, -st.microseconds⟩

/-! ## Normalizer (lines 235-254) -/

def normalizeMicroseconds (st : IntervalStorage) : ℚ × ℚ :=
  let totalDays : ℚ := (jsFloor (ratDiv st.microseconds MICROSECONDS_PER_DAY) : ℤ)
  let remainder : ℚ := jsMod st.microseconds MICROSECONDS_PER_DAY
  if st.microseconds < 0 ∧ remainder ≠ 0 then
    (ratSub totalDays 1, ratAdd remainder MICROSECONDS_PER_DAY)
  else
    (totalDays, remainder)

def normalizeStorage (st : IntervalStorage) : IntervalStorage :=
  let n := normalizeMicroseconds st
  ⟨st.months, ratAdd st.days n.1, n.2⟩

/-! ## Arithmetic and equality (lines 256-290, 361-363) -/

def add (a b : IntervalStorage) : IntervalStorage :=
  let x := normalizeStorage a
  let y := normalizeStorage b
  ⟨ratAdd x.months y.months, ratAdd x.days y.days, ratAdd x.microseconds y.microseconds⟩

def subtract (a b : IntervalStorage) : IntervalStorage :=
  let x := normalizeStorage a
  let y := normalizeStorage b
  ⟨ratSub x.months y.months, ratSub x.days y.days, ratSub x.microseconds y.microseconds⟩

def multiply (a : IntervalStorage) (factor : ℚ) : IntervalStorage :=
  let n := normalizeStorage a
  ⟨(jsRound (ratMul n.months factor) : ℚ), (jsRound (ratMul n.days factor) : ℚ),
    (jsRound (ratMul n.microseconds factor) : ℚ)⟩

def equals (a b : IntervalStorage) : Bool :=
  decide (normalizeStorage a = normalizeStorage b)

def getStorage (st : IntervalStorage) : IntervalStorage :=
  normalizeStorage st

/-! ## Character and token utilities

`String#trim`, `String#split(/\s+/)` on already-trimmed input, digit runs,
and exact-decimal `parseInt` / `parseFloat` on the digit strings captured
by the library's regular expressions. -/

def isWhitespaceChar (c : Char) : Bool :=
  c == ' ' || c == '\t' || c == '\n' || c == '\r' || c == '\x0b' || c == '\x0c'

def isDigitChar (c : Char) : Bool := '0' ≤ c && c ≤ '9'

def isAsciiLetter (c : Char) : Bool :=
  ('a' ≤ c && c ≤ 'z') || ('A' ≤ c && c ≤ 'Z')

def trimChars (cs : List Char) : List Char :=
  ((cs.dropWhile isWhitespaceChar).reverse.dropWhile isWhitespaceChar).reverse

def splitTokensAux : List Char → List Char → List (List Char)
  | [], acc => if acc = [] then [] else [acc.reverse]
  | c :: cs, acc =>
    if isWhitespaceChar c then
      (if acc = [] then [] else [acc.reverse]) ++ splitTokensAux cs []
    else
      splitTokensAux cs (c :: acc)

def splitTokens (cs : List Char) : List (List Char) := splitTokensAux cs []

def digitsToNatAux : ℕ → List Char → ℕ
  | acc, [] => acc
  | acc, c :: cs => digitsToNatAux (10 * acc + (c.toNat - '0'.toNat)) cs

def digitsToNat (cs : List Char) : ℕ := digitsToNatAux 0 cs

/-- Value of the fractional digit string `cs` standing after a decimal
point: `parseFloat("0." ++ cs)`. -/
def fracVal (cs : List Char) : ℚ :=
  ratDiv (digitsToNat cs : ℚ) ((10 ^ cs.length : ℕ) : ℚ)

/-- `parseFloat` on a string matching `\d+(\.\d+)?` split into its integer
and fractional digit parts. -/
def decimalVal (int frac : List Char) : ℚ :=
  ratAdd (digitsToNat int : ℚ) (fracVal frac)

/-- Recognizer for the verbose-format number regex `^-?\d+(\.\d+)?$`,
returning `parseFloat` of the token on success. -/
def numberTokenVal (tok : List Char) : Option ℚ :=
  let (neg, rest) := match tok with
    | '-' :: r => (true, r)
    | _ => (false, tok)
  let int := rest.takeWhile isDigitChar
  let rest2 := rest.dropWhile isDigitChar
  if int = [] then none
  else
    match rest2 with
    | [] => some (ratMul (if neg then -1 else 1) (decimalVal int []))
    | '.' :: fr =>
      let frac := fr.takeWhile isDigitChar
      let rest3 := fr.dropWhile isDigitChar
      if frac = [] ∨ rest3 ≠ [] then none
      else some (ratMul (if neg then -1 else 1) (decimalVal int frac))
    | _ => none

/-! ## Unit alias table (lines 12-51) and canonical units -/

inductive CanonUnit
  | year | month | day | hour | minute | second | millisecond | microsecond
deriving DecidableEq, Repr

def unitAliasLookup (s : String) : Option CanonUnit :=
  if s = "years" || s = "year" || s = "yr" || s = "y" then some CanonUnit.year
  else if s = "months" || s = "month" || s = "mons" || s = "mon" then some CanonUnit.month
  else if s = "days" || s = "day" || s = "d" then some CanonUnit.day
  else if s = "hours" || s = "hour" || s = "hr" || s = "h" then some CanonUnit.hour
  else if s = "minutes" || s = "minute" || s = "mins" || s = "min" then some CanonUnit.minute
  else if s = "seconds" || s = "second" || s = "secs" || s = "sec" || s = "s" then
    some CanonUnit.second
  else if s = "milliseconds" || s = "millisecond" || s = "millisecs" || s = "millisec" ||
      s = "msecs" || s = "msec" || s = "ms" then some CanonUnit.millisecond
  else if s = "microseconds" || s = "microsecond" || s = "microsecs" || s = "microsec" ||
      s = "usecs" || s = "usec" || s = "us" then some CanonUnit.microsecond
  else none

/-- `getCanonicalUnit` (lines 78-80): lowercase, then alias lookup. -/
def getCanonicalUnit (cs : List Char) : Option CanonUnit :=
  unitAliasLookup (String.mk (cs.map Char.toLower))

/-- `part.replace(/s$/, '')`: drop a single trailing lowercase `'s'`. -/
def stripTrailingS (cs : List Char) : List Char :=
  if cs.getLast? = some 's' then cs.dropLast else cs

/-- `tryParseUnit`'s recognizer (lines 165-170): the token must match
`^[a-z]+s?$/i` (equivalently: nonempty, all ASCII letters), then the
trailing-`s`-stripped token must resolve through the alias table. -/
def unitTokenLookup (tok : List Char) : Option CanonUnit :=
  if tok ≠ [] ∧ tok.all isAsciiLetter then getCanonicalUnit (stripTrailingS tok)
  else none

/-- `addValueWithUnit` (lines 179-206). -/
def addValueWithUnit (st : IntervalStorage) (u : CanonUnit) (value : ℚ) : IntervalStorage :=
  match u with
  | CanonUnit.year => addMonths st (ratMul value MONTHS_PER_YEAR)
  | CanonUnit.month => addMonths st value
  | CanonUnit.day => addDays st value
  | CanonUnit.hour => addTime st value 0 0
  | CanonUnit.minute => addTime st 0 value 0
  | CanonUnit.second => addTime st 0 0 value
  | CanonUnit.millisecond => addMicroseconds st (ratMul value MICROSECONDS_PER_MILLISECOND)
  | CanonUnit.microsecond => addMicroseconds st value

/-! ## Verbose format (lines 132-163) -/

def tokStartsWithMinus (tok : List Char) : Bool :=
  match tok with
  | '-' :: _ => true
  | _ => false

def verboseLoop : IntervalStorage → ℚ → Bool → List (List Char) → IntervalStorage
  | st, _, _, [] => st
  | st, curVal, neg, tok :: rest =>
    if tok = ['-'] then
      verboseLoop st curVal true rest
    else
      match numberTokenVal tok with
      | some v => verboseLoop st v (tokStartsWithMinus tok) rest
      | none =>
        match unitTokenLookup tok with
        | some u =>
          verboseLoop (addValueWithUnit st u (ratMul curVal (if neg then -1 else 1))) 0 false rest
        | none => verboseLoop st curVal neg rest

def parseVerboseFormat (st : IntervalStorage) (cs : List Char) : IntervalStorage :=
  verboseLoop st 0 false (splitTokens cs)

/-! ## ISO-8601 duration (lines 98-115)

Hand embedding of the anchored regex
`^P(?:(\d+)Y)?(?:(\d+)M)?(?:(\d+)D)?(?:T(?:(\d+)H)?(?:(\d+)M)?(?:(\d+(?:\.\d+)?)S)?)?$`.
Capture groups are digit strings; the units of one section must appear in
regex order, each at most once.  Recursion is fueled by the input length,
with one character consumed per step at minimum, so the fuel is never
exhausted. -/

structure ISOGroups where
  yearsG : Option (List Char)
  monthsG : Option (List Char)
  daysG : Option (List Char)
  hoursG : Option (List Char)
  minutesG : Option (List Char)
  secondsG : Option (List Char × List Char)
deriving Repr

def emptyISOGroups : ISOGroups := ⟨none, none, none, none, none, none⟩

def setTimeGroup (g : ISOGroups) (u : Char) (int frac : List Char) : ISOGroups :=
  if u = 'H' then ⟨g.yearsG, g.monthsG, g.daysG, some int, g.minutesG, g.secondsG⟩
  else if u = 'M' then ⟨g.yearsG, g.monthsG, g.daysG, g.hoursG, some int, g.secondsG⟩
  else ⟨g.yearsG, g.monthsG, g.daysG, g.hoursG, g.minutesG, some (int, frac)⟩

def setDateGroup (g : ISOGroups) (u : Char) (int : List Char) : ISOGroups :=
  if u = 'Y' then ⟨some int, g.monthsG, g.daysG, g.hoursG, g.minutesG, g.secondsG⟩
  else if u = 'M' then ⟨g.yearsG, some int, g.daysG, g.hoursG, g.minutesG, g.secondsG⟩
  else ⟨g.yearsG, g.monthsG, some int, g.hoursG, g.minutesG, g.secondsG⟩

/-- Units of `allowed` strictly after the first occurrence of `u`. -/
def unitsAfter (u : Char) : List Char → List Char
  | [] => []
  | c :: cs => if c = u then cs else unitsAfter u cs

def isoTimeLoop : ℕ → List Char → List Char → ISOGroups → Option ISOGroups
  | 0, _, _, _ => none
  | _ + 1, [], _, g => some g
  | fuel + 1, cs, allowed, g =>
    let int := cs.takeWhile isDigitChar
    let rest := cs.dropWhile isDigitChar
    if int = [] then none
    else
      match rest with
      | '.' :: fr =>
        let frac := fr.takeWhile isDigitChar
        let rest2 := fr.dropWhile isDigitChar
        if frac = [] then none
        else
          match rest2 with
          | 'S' :: rest3 =>
            if ('S' : Char) ∈ allowed then
              isoTimeLoop fuel rest3 (unitsAfter 'S' allowed) (setTimeGroup g 'S' int frac)
            else none
          | _ => none
      | u :: rest2 =>
        if u ∈ allowed then
          isoTimeLoop fuel rest2 (unitsAfter u allowed) (setTimeGroup g u int [])
        else none
      | [] => none

def isoDateLoop : ℕ → List Char → List Char → ISOGroups → Option ISOGroups
  | 0, _, _, _ => none
  | _ + 1, [], _, g => some g
  | _ + 1, 'T' :: rest, _, g => isoTimeLoop (rest.length + 1) rest ['H', 'M', 'S'] g
  | fuel + 1, cs, allowed, g =>
    let int := cs.takeWhile isDigitChar
    let rest := cs.dropWhile isDigitChar
    if int = [] then none
    else
      match rest with
      | u :: rest2 =>
        if u ∈ allowed then
          isoDateLoop fuel rest2 (unitsAfter u allowed) (setDateGroup g u int)
        else none
      | [] => none

def isoMatch : List Char → Option ISOGroups
  | 'P' :: rest => isoDateLoop (rest.length + 1) rest ['Y', 'M', 'D'] emptyISOGroups
  | _ => none

def tryParseISO8601 (st : IntervalStorage) (cs : List Char) : Option IntervalStorage :=
  match isoMatch cs with
  | none => none
  | some g =>
    let st1 := match g.yearsG with
      | some ds => addMonths st (ratMul (digitsToNat ds : ℚ) MONTHS_PER_YEAR)
      | none => st
    let st2 := match g.monthsG with
      | some ds => addMonths st1 (digitsToNat ds : ℚ)
      | none => st1
    let st3 := match g.daysG with
      | some ds => addDays st2 (digitsToNat ds : ℚ)
      | none => st2
    let st4 :=
      if g.hoursG.isSome || g.minutesG.isSome || g.secondsG.isSome then
        addTime st3
          (digitsToNat (g.hoursG.getD []) : ℚ)
          (digitsToNat (g.minutesG.getD []) : ℚ)
          (match g.secondsG with
            | some (int, frac) => decimalVal int frac
            | none => 0)
      else st3
    some st4

/-! ## Signed clock-time (lines 117-130)

Hand embedding of `^(-)?(\d+):(\d+):(\d+)(?:\.(\d+))?$`. -/

def tryParseTimeFormat (st : IntervalStorage) (cs : List Char) : Option IntervalStorage :=
  let (neg, cs1) := match cs with
    | '-' :: r => (true, r)
    | _ => (false, cs)
  let h := cs1.takeWhile isDigitChar
  let r1 := cs1.dropWhile isDigitChar
  if h = [] then none
  else
    match r1 with
    | ':' :: r2 =>
      let m := r2.takeWhile isDigitChar
      let r3 := r2.dropWhile isDigitChar
      if m = [] then none
      else
        match r3 with
        | ':' :: r4 =>
          let s := r4.takeWhile isDigitChar
          let r5 := r4.dropWhile isDigitChar
          if s = [] then none
          else
            let mult : ℚ := if neg then -1 else 1
            match r5 with
            | [] =>
              some (addTime st (ratMul (digitsToNat h : ℚ) mult) (ratMul (digitsToNat m : ℚ) mult)
                (ratMul (decimalVal s []) mult))
            | '.' :: fr =>
              let us := fr.takeWhile isDigitChar
              let r6 := fr.dropWhile isDigitChar
              if us = [] ∨ r6 ≠ [] then none
              else
                some (addTime st (ratMul (digitsToNat h : ℚ) mult) (ratMul (digitsToNat m : ℚ) mult)
                  (ratMul (decimalVal s us) mult))
            | _ => none
        | _ => none
    | _ => none

/-! ## Parse dispatch (lines 82-96)

`tryParseNegativeISO` succeeds for every input beginning with `-P`: it
strips the leading `-`, recursively runs the whole parse chain on the
remainder, and negates all three components. -/

/-- Parsers 2-4 of the chain: ISO-8601, then clock-time, then the verbose
fallback. -/
def laterParsers (st : IntervalStorage) (cs : List Char) : IntervalStorage :=
  match tryParseISO8601 st cs with
  | some st' => st'
  | none =>
    match tryParseTimeFormat st cs with
    | some st' => st'
    | none => parseVerboseFormat st cs

def parseChain : IntervalStorage → List Char → IntervalStorage
  | st, '-' :: 'P' :: rest => negateAllComponents (parseChain st ('P' :: rest))
  | st, cs => laterParsers st cs

/-- The `Interval` constructor from a string (lines 62-76): an empty string
is falsy and leaves the zero storage; otherwise the trimmed input is
parsed. -/
def intervalOfString (s : String) : IntervalStorage :=
  if s = "" then zeroStorage else parseChain zeroStorage (trimChars s.data)

/-! ## Number-to-string rendering

JavaScript's `Number#toString`.  Every number the formatter prints is
either an integer or (via the `days`/`months`/`remainingMicros` fields of
an unnormalized value) a rational with a finite decimal expansion, which
is exactly what the double-to-string algorithm prints for the short
decimal values arising here; rationals without a finite decimal expansion
are rendered in a fallback fraction form that no code path of the claims
reaches. -/

def digitChar (n : ℕ) : Char :=
  if n = 0 then '0' else if n = 1 then '1' else if n = 2 then '2' else if n = 3 then '3'
  else if n = 4 then '4' else if n = 5 then '5' else if n = 6 then '6' else if n = 7 then '7'
  else if n = 8 then '8' else '9'

def natToCharsAux : ℕ → ℕ → List Char → List Char
  | 0, n, acc => digitChar (n % 10) :: acc
  | fuel + 1, n, acc =>
    let acc1 := digitChar (n % 10) :: acc
    if n < 10 then acc1 else natToCharsAux fuel (n / 10) acc1

def natToChars (n : ℕ) : List Char := natToCharsAux n n []

def intToChars (z : ℤ) : List Char :=
  if z < 0 then '-' :: natToChars z.natAbs else natToChars z.natAbs

/-- Smallest exponent `k` with `1 ≤ k ≤ fuel` such that `q * 10 ^ k` is an
integer. -/
def findDecExp (q : ℚ) : ℕ → Option ℕ
  | 0 => none
  | fuel + 1 =>
    match findDecExp q fuel with
    | some k => some k
    | none => if (ratMul q (((10 ^ (fuel + 1) : ℕ) : ℚ))).den = 1 then some (fuel + 1) else none

def padStartChars (w : ℕ) (c : Char) (cs : List Char) : List Char :=
  List.replicate (w - cs.length) c ++ cs

def ratToChars (q : ℚ) : List Char :=
  if q.den = 1 then intToChars q.num
  else
    match findDecExp q 30 with
    | some k =>
      let m := (ratMul (ratAbs q) (((10 ^ k : ℕ) : ℚ))).num.natAbs
      (if q < 0 then ['-'] else []) ++ natToChars (m / 10 ^ k) ++
        '.' :: padStartChars k '0' (natToChars (m % 10 ^ k))
    | none => intToChars q.num ++ '/' :: natToChars q.den

/-! ## Formatter (lines 292-359) -/

def appendYearsAndMonths (totalMonths : ℚ) : List (List Char) :=
  let absMonths := ratAbs totalMonths
  let years : ℤ := jsFloor (ratDiv absMonths MONTHS_PER_YEAR)
  let monthsR : ℚ := jsMod absMonths MONTHS_PER_YEAR
  let sgn := jsSign totalMonths
  (if 0 < years then
    [ratToChars (ratMul sgn (years : ℚ)) ++ " year".data ++ (if years ≠ 1 then ['s'] else [])]
  else []) ++
  (if 0 < monthsR then
    [ratToChars (ratMul sgn monthsR) ++ " mon".data ++ (if monthsR ≠ 1 then ['s'] else [])]
  else [])

def appendDays (days : ℚ) : List (List Char) :=
  if days ≠ 0 then
    [ratToChars days ++ " day".data ++ (if ratAbs days ≠ 1 then ['s'] else [])]
  else []

structure DecomposedTime where
  hours : ℤ
  minutes : ℤ
  seconds : ℤ
  remainingMicros : ℚ
  isNegative : Bool
deriving DecidableEq, Repr

def decomposeTime (microseconds : ℚ) : DecomposedTime :=
  let r0 := ratAbs microseconds
  let hours := jsFloor (ratDiv r0 MICROSECONDS_PER_HOUR)
  let r1 := jsMod r0 MICROSECONDS_PER_HOUR
  let minutes := jsFloor (ratDiv r1 MICROSECONDS_PER_MINUTE)
  let r2 := jsMod r1 MICROSECONDS_PER_MINUTE
  let seconds := jsFloor (ratDiv r2 MICROSECONDS_PER_SECOND)
  let r3 := jsMod r2 MICROSECONDS_PER_SECOND
  ⟨hours, minutes, seconds, r3, decide (microseconds < 0)⟩

def appendTime (microseconds : ℚ) (forceDisplay : Bool) : Option (List Char) :=
  if microseconds = 0 ∧ forceDisplay = false then none
  else
    let d := decomposeTime microseconds
    let base :=
      (if d.isNegative then ['-'] else []) ++
        padStartChars 2 '0' (intToChars d.hours) ++
        ':' :: padStartChars 2 '0' (intToChars d.minutes) ++
        ':' :: padStartChars 2 '0' (intToChars d.seconds)
    some (base ++
      (if 0 < d.remainingMicros then
        '.' :: padStartChars 6 '0' (ratToChars d.remainingMicros)
      else []))

def toPostgresString (st : IntervalStorage) : String :=
  let norm := normalizeStorage st
  let parts :=
    appendYearsAndMonths norm.months ++ appendDays norm.days ++
      (appendTime norm.microseconds (decide (norm.months = 0 ∧ norm.days = 0))).toList
  let joined := List.intercalate [' '] parts
  if joined = [] then "00:00:00" else String.mk joined

/-! ## Definitions following the specification's words

These are NOT translations of the source: they state, for comparison with
the implemented functions above, the behavior the specification claims. -/

/-- The dispatch behavior the specification asserts for inputs beginning
with `-P`: the negated-ISO recognizer strips the leading `-`, parses the
remainder as ISO-8601 only, and negates the result; when the remainder is
not valid ISO-8601 it declines and the whole input falls through to the
later parsers in the chain. -/
def claimedDispatchParse (st : IntervalStorage) (cs : List Char) : IntervalStorage :=
  match cs with
  | '-' :: 'P' :: rest =>
    match tryParseISO8601 st ('P' :: rest) with
    | some st' => negateAllComponents st'
    | none => laterParsers st ('-' :: 'P' :: rest)
  | _ => laterParsers st cs

/-- The rounding rule the specification asserts: round to the nearest
integer, halves away from zero. -/
def specRoundHalfAwayFromZero (q : ℚ) : ℤ :=
  if 0 ≤ q then ⌊q + 1/2⌋ else -⌊-q + 1/2⌋

/-! ## Helper lemmas

First the bridging lemmas showing the kernel-computable wrappers are the
field operations of `ℚ`. -/

theorem ratAdd_eq (a b : ℚ) : ratAdd a b = a + b := by
  unfold ratAdd
  rw [Rat.mkRat_eq_divInt, Rat.divInt_eq_div]
  have ha : ((a.den : ℚ)) ≠ 0 := by
    exact_mod_cast a.den_ne_zero
  have hb : ((b.den : ℚ)) ≠ 0 := by
    exact_mod_cast b.den_ne_zero
  conv_rhs => rw [← Rat.num_div_den a, ← Rat.num_div_den b]
  push_cast
  field_simp

theorem ratMul_eq (a b : ℚ) : ratMul a b = a * b := by
  unfold ratMul
  rw [Rat.mkRat_eq_divInt, Rat.divInt_eq_div]
  have ha : ((a.den : ℚ)) ≠ 0 := by
    exact_mod_cast a.den_ne_zero
  have hb : ((b.den : ℚ)) ≠ 0 := by
    exact_mod_cast b.den_ne_zero
  conv_rhs => rw [← Rat.num_div_den a, ← Rat.num_div_den b]
  push_cast
  field_simp

theorem ratSub_eq (a b : ℚ) : ratSub a b = a - b := by
  unfold ratSub
  rw [ratAdd_eq]
  ring

theorem ratInv_eq (a : ℚ) : ratInv a = a⁻¹ := by
  unfold ratInv
  rw [Rat.inv_def']
  split_ifs with h
  · rw [Rat.mkRat_eq_divInt, Rat.divInt_eq_div, Rat.divInt_eq_div]
    push_cast
    rw [abs_of_neg (show ((a.num : ℤ) : ℚ) < 0 by exact_mod_cast h), neg_div_neg_eq]
  · rw [Rat.mkRat_eq_divInt, Rat.divInt_eq_div, Rat.divInt_eq_div]
    push_cast
    rw [abs_of_nonneg (show (0 : ℚ) ≤ ((a.num : ℤ) : ℚ) by exact_mod_cast not_lt.mp h)]

theorem ratDiv_eq (a b : ℚ) : ratDiv a b = a / b := by
  unfold ratDiv
  rw [ratMul_eq, ratInv_eq, div_eq_mul_inv]

theorem ratAbs_eq (a : ℚ) : ratAbs a = |a| := by
  unfold ratAbs
  split_ifs with h
  · exact (abs_of_neg h).symm
  · exact (abs_of_nonneg (not_lt.mp h)).symm

theorem mkRat_one_two : (mkRat 1 2 : ℚ) = 1/2 := by
  rw [Rat.mkRat_eq_divInt, Rat.divInt_eq_div]
  norm_num

theorem jsRound_eq (q : ℚ) : jsRound q = ⌊q + 1/2⌋ := by
  unfold jsRound
  rw [ratAdd_eq, mkRat_one_two]

theorem jsMod_def (a b : ℚ) : jsMod a b = a - b * (jsTrunc (a / b) : ℚ) := by
  unfold jsMod
  rw [ratSub_eq, ratMul_eq, ratDiv_eq]

theorem unfolded_constants :
    MICROSECONDS_PER_MINUTE = 60000000 ∧ MICROSECONDS_PER_HOUR = 3600000000 ∧
      MICROSECONDS_PER_DAY = 86400000000 := by
  refine ⟨?_, ?_, ?_⟩ <;> decide

theorem jsMod_eq_fract_mul {a b : ℚ} (ha : 0 ≤ a) (hb : 0 < b) :
    jsMod a b = b * Int.fract (a / b) := by
  rw [jsMod_def]
  unfold jsTrunc
  rw [if_pos (div_nonneg ha hb.le), Int.fract]
  have hbne : b ≠ 0 := ne_of_gt hb
  field_simp

theorem jsMod_nonneg_lt {a b : ℚ} (ha : 0 ≤ a) (hb : 0 < b) :
    0 ≤ jsMod a b ∧ jsMod a b < b := by
  rw [jsMod_eq_fract_mul ha hb]
  constructor
  · exact mul_nonneg hb.le (Int.fract_nonneg _)
  · have hlt : b * Int.fract (a / b) < b * 1 :=
      mul_lt_mul_of_pos_left (Int.fract_lt_one _) hb
    rw [mul_one] at hlt
    exact hlt

theorem jsMod_neg_eq {a b : ℚ} (ha : a < 0) (hb : 0 < b) :
    jsMod a b = -(b * Int.fract (-a / b)) := by
  rw [jsMod_def]
  unfold jsTrunc
  rw [if_neg (not_le.mpr (div_neg_of_neg_of_pos ha hb)), Int.fract]
  have hceil : (⌈a / b⌉ : ℤ) = -⌊-(a / b)⌋ := by
    rw [Int.floor_neg, neg_neg]
  rw [hceil, neg_div]
  have hbne : b ≠ 0 := ne_of_gt hb
  push_cast
  field_simp
  ring

theorem jsMod_neg_bounds {a b : ℚ} (ha : a < 0) (hb : 0 < b) :
    -b < jsMod a b ∧ jsMod a b ≤ 0 := by
  rw [jsMod_neg_eq ha hb]
  constructor
  · have : b * Int.fract (-a / b) < b * 1 :=
      mul_lt_mul_of_pos_left (Int.fract_lt_one _) hb
    rw [mul_one] at this
    linarith
  · have : 0 ≤ b * Int.fract (-a / b) := mul_nonneg hb.le (Int.fract_nonneg _)
    linarith

theorem normalizeStorage_micro_bounds (st : IntervalStorage) :
    0 ≤ (normalizeStorage st).microseconds ∧
      (normalizeStorage st).microseconds < MICROSECONDS_PER_DAY := by
  have hday : (0 : ℚ) < MICROSECONDS_PER_DAY := by
    rw [unfolded_constants.2.2]; norm_num
  unfold normalizeStorage normalizeMicroseconds
  simp only
  split_ifs with h
  · obtain ⟨hneg, hne⟩ := h
    obtain ⟨hlo, hhi⟩ := jsMod_neg_bounds hneg hday
    constructor
    · simp only [ratAdd_eq]
      linarith
    · simp only [ratAdd_eq]
      rcases lt_or_eq_of_le hhi with h' | h'
      · linarith
      · exact absurd h' hne
  · rcases lt_or_le st.microseconds 0 with hneg | hpos
    · have hz : jsMod st.microseconds MICROSECONDS_PER_DAY = 0 := by
        by_contra hnz
        exact h ⟨hneg, hnz⟩
      simp only [hz]
      exact ⟨le_refl 0, hday⟩
    · exact jsMod_nonneg_lt hpos hday

theorem digitChar_ne_dash (n : ℕ) : digitChar n ≠ '-' := by
  unfold digitChar
  split_ifs <;> decide

theorem natToCharsAux_head_digit (fuel : ℕ) :
    ∀ n acc, ∃ j, (natToCharsAux fuel n acc).head? = some (digitChar j) := by
  induction fuel with
  | zero =>
    intro n acc
    exact ⟨n % 10, rfl⟩
  | succ fuel ih =>
    intro n acc
    unfold natToCharsAux
    simp only
    split_ifs with h
    · exact ⟨n % 10, rfl⟩
    · exact ih (n / 10) (digitChar (n % 10) :: acc)

theorem natToChars_head_ne_dash (n : ℕ) : (natToChars n).head? ≠ some '-' := by
  obtain ⟨j, hj⟩ := natToCharsAux_head_digit n n []
  rw [natToChars, hj]
  intro h
  exact digitChar_ne_dash j (Option.some.inj h)

theorem natToChars_append_head_ne_dash (n : ℕ) (rest : List Char) :
    (natToChars n ++ rest).head? ≠ some '-' := by
  obtain ⟨j, hj⟩ := natToCharsAux_head_digit n n []
  rw [List.head?_append]
  rw [show natToChars n = natToCharsAux n n [] from rfl, hj]
  intro hcon
  exact digitChar_ne_dash j (Option.some.inj (by simpa [Option.or] using hcon))

theorem padStart_intToChars_head_ne_dash {h : ℤ} (hh : 0 ≤ h) (rest : List Char) :
    (padStartChars 2 '0' (intToChars h) ++ rest).head? ≠ some '-' := by
  have hcs : intToChars h = natToChars h.natAbs := by
    unfold intToChars
    rw [if_neg (not_lt.mpr hh)]
  rw [hcs]
  unfold padStartChars
  rcases hk : 2 - (natToChars h.natAbs).length with _ | k
  · simp only [List.replicate, List.nil_append]
    exact natToChars_append_head_ne_dash h.natAbs rest
  · simp only [List.replicate, List.cons_append, List.head?_cons]
    decide

theorem jsMod_natCast (m k : ℕ) :
    jsMod (m : ℚ) (k : ℚ) = ((m % k : ℕ) : ℚ) := by
  rcases Nat.eq_zero_or_pos k with hk | hk
  · subst hk
    simp [jsMod_def, jsTrunc]
  have hkq : (0 : ℚ) < (k : ℚ) := by exact_mod_cast hk
  have hknz : ((k : ℚ)) ≠ 0 := ne_of_gt hkq
  rw [jsMod_def]
  unfold jsTrunc
  rw [if_pos (by positivity)]
  have h0 : 0 ≤ ⌊(m : ℚ) / (k : ℚ)⌋ := Int.floor_nonneg.mpr (by positivity)
  have hfl : ⌊(m : ℚ) / (k : ℚ)⌋ = ((m / k : ℕ) : ℤ) := by
    rw [← Int.toNat_of_nonneg h0, Int.floor_toNat, Nat.floor_div_eq_div]
  rw [hfl]
  have hdm := Nat.div_add_mod m k
  have hdm2 : ((k : ℚ)) * ((m / k : ℕ) : ℚ) + ((m % k : ℕ) : ℚ) = (m : ℚ) := by
    exact_mod_cast congrArg (fun n : ℕ => (n : ℚ)) hdm
  have hgoal : ((m : ℚ)) - (k : ℚ) * ((m / k : ℕ) : ℚ) = ((m % k : ℕ) : ℚ) := by
    linarith
  exact_mod_cast hgoal

theorem decomposeTime_natCast_remaining (m : ℕ) :
    (decomposeTime (m : ℚ)).remainingMicros = ((m % 1000000 : ℕ) : ℚ) := by
  obtain ⟨hMIN, hHR, _⟩ := unfolded_constants
  have habs : ratAbs ((m : ℕ) : ℚ) = ((m : ℕ) : ℚ) := by
    rw [ratAbs_eq]
    exact abs_of_nonneg (by positivity)
  have hHRc : MICROSECONDS_PER_HOUR = ((3600000000 : ℕ) : ℚ) := by
    rw [hHR]; norm_num
  have hMINc : MICROSECONDS_PER_MINUTE = ((60000000 : ℕ) : ℚ) := by
    rw [hMIN]; norm_num
  have hSECc : MICROSECONDS_PER_SECOND = ((1000000 : ℕ) : ℚ) := by
    rw [MICROSECONDS_PER_SECOND]; norm_num
  unfold decomposeTime
  simp only [habs, hHRc, hMINc, hSECc, jsMod_natCast]
  rw [Nat.mod_mod_of_dvd m (by norm_num : (60000000 : ℕ) ∣ 3600000000),
    Nat.mod_mod_of_dvd m (by norm_num : (1000000 : ℕ) ∣ 60000000)]

theorem ratToChars_natCast (n : ℕ) : ratToChars ((n : ℕ) : ℚ) = natToChars n := by
  unfold ratToChars
  rw [if_pos (Rat.den_natCast n)]
  unfold intToChars
  rw [Rat.num_natCast]
  rw [if_neg (by exact_mod_cast Int.not_lt.mpr (Int.ofNat_nonneg n))]
  simp

theorem natToCharsAux_length_le (fuel : ℕ) :
    ∀ k n acc, n < 10 ^ k → 1 ≤ k →
      (natToCharsAux fuel n acc).length ≤ acc.length + k := by
  induction fuel with
  | zero =>
    intro k n acc _ hk
    simp only [natToCharsAux, List.length_cons]
    omega
  | succ fuel ih =>
    intro k n acc hn hk
    unfold natToCharsAux
    simp only
    split_ifs with h
    · simp only [List.length_cons]
      omega
    · have h10 : 10 ≤ n := not_lt.mp h
      have hk2 : 2 ≤ k := by
        by_contra hcon
        have : k = 1 := by omega
        subst this
        simp at hn
        omega
      have hdiv : n / 10 < 10 ^ (k - 1) := by
        have : n < 10 ^ (k - 1) * 10 := by
          have : 10 ^ (k - 1) * 10 = 10 ^ k := by
            rw [← pow_succ]
            congr 1
            omega
          omega
        omega
      have := ih (k - 1) (n / 10) (digitChar (n % 10) :: acc) hdiv (by omega)
      simp only [List.length_cons] at this
      omega

theorem natToChars_length_le {n k : ℕ} (hn : n < 10 ^ k) (hk : 1 ≤ k) :
    (natToChars n).length ≤ k := by
  have := natToCharsAux_length_le n k n [] hn hk
  simpa [natToChars] using this

/-! ## Claim theorems -/

theorem eval_c1_parse : getStorage (intervalOfString "-P1M") = ⟨-1, 0, 0⟩ := by
  decide

theorem eval_c1_render : toPostgresString (intervalOfString "-P1M") = "-1 mon" := by
  decide

theorem eval_c1_reparse : getStorage (intervalOfString "-1 mon") = ⟨1, 0, 0⟩ := by
  decide

/-- C1: the round-trip property fails on the code.  The value constructed
from the text "-P1M" has normalized snapshot (months -1, days 0,
microseconds 0) and canonical rendering "-1 mon", but constructing a new
interval from that rendering yields snapshot (1, 0, 0): the verbose
fallback parser applies the magnitude token's leading '-' twice (once in
`parseFloat`, once through the `isNegative` flag), so the negative sign is
lost on reparse. -/
theorem C1_roundTrip_failure :
    getStorage (intervalOfString "-P1M") = ⟨-1, 0, 0⟩ ∧
    toPostgresString (intervalOfString "-P1M") = "-1 mon" ∧
    getStorage (intervalOfString (toPostgresString (intervalOfString "-P1M"))) = ⟨1, 0, 0⟩ ∧
    getStorage (intervalOfString (toPostgresString (intervalOfString "-P1M"))) ≠
      getStorage (intervalOfString "-P1M") := by
  refine ⟨eval_c1_parse, eval_c1_render, ?_, ?_⟩
  · rw [eval_c1_render]
    exact eval_c1_reparse
  · rw [eval_c1_render, eval_c1_reparse, eval_c1_parse]
    intro hcon
    have := congrArg IntervalStorage.months hcon
    norm_num at this

theorem eval_c2_months : (intervalOfString "1 year -2 months").months = 14 := by
  decide

theorem eval_c2_raw : intervalOfString "1 day -12 hours" = ⟨0, 1, 43200000000⟩ := by
  decide

theorem eval_c2_norm : getStorage (⟨0, 1, 43200000000⟩ : IntervalStorage) = ⟨0, 1, 43200000000⟩ := by
  decide

/-- C2: sign independence fails on the code.  "1 year -2 months" parses to
months = 14 (the claim says 10): the verbose parser stores
`parseFloat("-2") = -2` AND sets the `isNegative` flag, then multiplies by
-1 again, so the component is added as +2.  Likewise "1 day -12 hours"
yields raw microseconds +43200000000 (the claim says -43200000000) and its
normalized snapshot is (0, 1, 43200000000) (the claim says
(0, 0, 43200000000)). -/
theorem C2_sign_independence_failure :
    (intervalOfString "1 year -2 months").months = 14 ∧
    (intervalOfString "1 year -2 months").months ≠ 10 ∧
    intervalOfString "1 day -12 hours" = ⟨0, 1, 43200000000⟩ ∧
    getStorage (intervalOfString "1 day -12 hours") = ⟨0, 1, 43200000000⟩ := by
  refine ⟨eval_c2_months, ?_, eval_c2_raw, ?_⟩
  · rw [eval_c2_months]
    norm_num
  · rw [eval_c2_raw]
    exact eval_c2_norm

theorem eval_c3_raw : intervalOfString "-PT0.000001S" = ⟨0, 0, -1⟩ := by
  decide

theorem eval_c3_norm : getStorage (⟨0, 0, -1⟩ : IntervalStorage) = ⟨0, -2, 86399999999⟩ := by
  decide

/-- C3: floor-division normalization fails on the code for negative
non-multiple microsecond counts.  The value constructed from
"-PT0.000001S" has raw fields (0, 0, -1); floor semantics would give
normalized days = 0 + floor(-1/86400000000) = -1, but the code computes
`Math.floor` AND then applies the truncation correction (decrementing a
second time), yielding (0, -2, 86399999999) — the normalized value no
longer represents the same duration. -/
theorem C3_normalization_floor_failure :
    intervalOfString "-PT0.000001S" = ⟨0, 0, -1⟩ ∧
    getStorage (intervalOfString "-PT0.000001S") = ⟨0, -2, 86399999999⟩ ∧
    ((jsFloor ((-1 : ℚ) / MICROSECONDS_PER_DAY) : ℤ) : ℚ) = -1 ∧
    getStorage (intervalOfString "-PT0.000001S") ≠ ⟨0, -1, 86399999999⟩ := by
  have hnorm : getStorage (intervalOfString "-PT0.000001S") = ⟨0, -2, 86399999999⟩ := by
    rw [eval_c3_raw]
    exact eval_c3_norm
  have hfloor : ((jsFloor ((-1 : ℚ) / MICROSECONDS_PER_DAY) : ℤ) : ℚ) = -1 := by
    rw [← ratDiv_eq]
    decide
  refine ⟨eval_c3_raw, hnorm, hfloor, ?_⟩
  rw [hnorm]
  intro hcon
  have := congrArg IntervalStorage.days hcon
  norm_num at this

theorem eval_c4_code : parseChain zeroStorage ("-P 1 day").data = ⟨0, -1, 0⟩ := by
  decide

theorem eval_c4_claimed : claimedDispatchParse zeroStorage ("-P 1 day").data = ⟨0, 1, 0⟩ := by
  decide

/-- C4 counterexample: the claimed dispatch (negated-ISO declines when the
remainder is not valid ISO-8601 and the input falls through to the later
parsers applied to the whole input) disagrees with the code on the input
"-P 1 day": the code parses the remainder "P 1 day" through the verbose
fallback and negates, giving days = -1, while the claimed dispatch falls
through to the verbose parser on the whole input, giving days = +1. -/
theorem C4_dispatch_counterexample :
    parseChain zeroStorage ("-P 1 day").data ≠
      claimedDispatchParse zeroStorage ("-P 1 day").data ∧
    parseChain zeroStorage ("-P 1 day").data = ⟨0, -1, 0⟩ ∧
    claimedDispatchParse zeroStorage ("-P 1 day").data = ⟨0, 1, 0⟩ := by
  refine ⟨?_, eval_c4_code, eval_c4_claimed⟩
  rw [eval_c4_code, eval_c4_claimed]
  intro hcon
  have := congrArg IntervalStorage.days hcon
  norm_num at this

/-- C4 (amended): for every input beginning with "-P" the recognizer never
declines: it strips the leading '-', parses the remainder through the FULL
parser chain (not only ISO-8601), and negates all three canonical fields
of the result.  In particular, when the remainder is valid ISO-8601 the
result is the negation of the ISO-8601 accumulation, as the original
claim describes; but an invalid-ISO remainder is handed to the later
parsers applied to the remainder, never to the original input. -/
theorem C4_negISO_dispatch (st : IntervalStorage) (rest : List Char) :
    parseChain st ('-' :: 'P' :: rest) = negateAllComponents (parseChain st ('P' :: rest)) ∧
    (∀ st', tryParseISO8601 st ('P' :: rest) = some st' →
      parseChain st ('-' :: 'P' :: rest) = negateAllComponents st') := by
  have hbase : parseChain st ('-' :: 'P' :: rest) =
      negateAllComponents (parseChain st ('P' :: rest)) := rfl
  refine ⟨hbase, ?_⟩
  intro st' h
  have hlater : parseChain st ('P' :: rest) = laterParsers st ('P' :: rest) := rfl
  rw [hbase, hlater]
  unfold laterParsers
  rw [h]

theorem C4_negISO_dispatch_witness :
    parseChain zeroStorage ('-' :: 'P' :: ['1', 'M']) = negateAllComponents ⟨1, 0, 0⟩ :=
  (C4_negISO_dispatch zeroStorage ['1', 'M']).2 ⟨1, 0, 0⟩ (by decide)

/-- C5: the ISO-8601 scenario holds: "P1Y2M3DT4H5M6.789S" parses to the
normalized snapshot (months 14, days 3, microseconds 14706789000 =
4*3600000000 + 5*60000000 + 6789000). -/
theorem C5_iso_parse :
    getStorage (intervalOfString "P1Y2M3DT4H5M6.789S") = ⟨14, 3, 14706789000⟩ := by
  decide

theorem eval_c6_hours_day : equals (intervalOfString "24 hours") (intervalOfString "1 day") = true := by
  decide

theorem eval_c6_day_snapshot : getStorage (intervalOfString "24 hours") = ⟨0, 1, 0⟩ := by
  decide

theorem eval_c6_day_snapshot2 : getStorage (intervalOfString "1 day") = ⟨0, 1, 0⟩ := by
  decide

theorem eval_c6_min_hour : equals (intervalOfString "60 minutes") (intervalOfString "1 hour") = true := by
  decide

theorem eval_c6_sec_hour : equals (intervalOfString "3600 seconds") (intervalOfString "1 hour") = true := by
  decide

theorem eval_c6_comm : equals (intervalOfString "1 month 30 days") (intervalOfString "30 days 1 month") = true := by
  decide

theorem eval_c6_cross : equals (intervalOfString "1 month") (intervalOfString "30 days") = false := by
  decide

/-- C6: unit equivalences under `equals` hold: "24 hours" = "1 day" (both
normalizing to (0, 1, 0)), "60 minutes" = "1 hour", "3600 seconds" =
"1 hour", "1 month 30 days" = "30 days 1 month", while "1 month" and
"30 days" are not equal (months and days are never cross-converted). -/
theorem C6_unit_equivalence :
    equals (intervalOfString "24 hours") (intervalOfString "1 day") = true ∧
    getStorage (intervalOfString "24 hours") = ⟨0, 1, 0⟩ ∧
    getStorage (intervalOfString "1 day") = ⟨0, 1, 0⟩ ∧
    equals (intervalOfString "60 minutes") (intervalOfString "1 hour") = true ∧
    equals (intervalOfString "3600 seconds") (intervalOfString "1 hour") = true ∧
    equals (intervalOfString "1 month 30 days") (intervalOfString "30 days 1 month") = true ∧
    equals (intervalOfString "1 month") (intervalOfString "30 days") = false :=
  ⟨eval_c6_hours_day, eval_c6_day_snapshot, eval_c6_day_snapshot2, eval_c6_min_hour,
    eval_c6_sec_hour, eval_c6_comm, eval_c6_cross⟩

/-- C8 counterexample: `multiply` does not round half away from zero.
Scaling the value (0, 0, 5) by -1/2 gives exact microseconds -5/2; the
code's `Math.round` yields -2 (half toward positive infinity), while
round-half-away-from-zero yields -3. -/
theorem C8_rounding_counterexample :
    (multiply ⟨0, 0, 5⟩ (-(1/2))).microseconds ≠
      ((specRoundHalfAwayFromZero ((normalizeStorage ⟨0, 0, 5⟩).microseconds * (-(1/2)))) : ℚ) := by
  have hhalf : (-(1/2) : ℚ) = mkRat (-1) 2 := by
    rw [Rat.mkRat_eq_divInt, Rat.divInt_eq_div]
    norm_num
  have hcode : (multiply ⟨0, 0, 5⟩ (mkRat (-1) 2)).microseconds = -2 := by
    decide
  have hnormfive : (normalizeStorage ⟨0, 0, 5⟩).microseconds = 5 := by
    decide
  rw [hhalf, hcode, hnormfive, ← hhalf]
  have harg : ((5 : ℚ)) * (-(1/2)) = -(5/2) := by norm_num
  rw [harg]
  have hspec : specRoundHalfAwayFromZero (-(5/2)) = -3 := by
    unfold specRoundHalfAwayFromZero
    rw [if_neg (by norm_num), neg_neg,
      show (5/2 + 1/2 : ℚ) = ((3 : ℤ) : ℚ) by norm_num, Int.floor_intCast]
  rw [hspec]
  norm_num

/-- C8 (amended): `addTime`, `addMicroseconds`, and `multiply` all round
with JavaScript's `Math.round`, i.e. to the nearest integer with ties
toward POSITIVE INFINITY (`⌊x + 1/2⌋`), not half away from zero: each
rounded value r satisfies x - 1/2 < r ≤ x + 1/2, and the rule agrees with
round-half-away-from-zero for non-negative inputs (so the two only differ
at negative exact halves). -/
theorem C8_rounding_half_up (st : IntervalStorage) (factor q x : ℚ) (hx : 0 ≤ x) :
    multiply st factor =
      ⟨(jsRound ((normalizeStorage st).months * factor) : ℚ),
        (jsRound ((normalizeStorage st).days * factor) : ℚ),
        (jsRound ((normalizeStorage st).microseconds * factor) : ℚ)⟩ ∧
    addMicroseconds st q = ⟨st.months, st.days, st.microseconds + (jsRound q : ℚ)⟩ ∧
    addTime st 0 0 q =
      ⟨st.months, st.days,
        st.microseconds + (jsRound (q * MICROSECONDS_PER_SECOND) : ℚ)⟩ ∧
    (q - 1/2 < (jsRound q : ℚ) ∧ (jsRound q : ℚ) ≤ q + 1/2) ∧
    jsRound x = specRoundHalfAwayFromZero x := by
  refine ⟨?_, ?_, ?_, ⟨?_, ?_⟩, ?_⟩
  · simp only [multiply, ratMul_eq]
  · simp only [addMicroseconds, ratAdd_eq]
  · simp only [addTime, ratAdd_eq, ratMul_eq, zero_mul, zero_add]
  · have h2 : q + 1/2 < (⌊q + 1/2⌋ : ℚ) + 1 := Int.lt_floor_add_one _
    rw [jsRound_eq]
    linarith
  · rw [jsRound_eq]
    exact Int.floor_le _
  · rw [jsRound_eq]
    unfold specRoundHalfAwayFromZero
    rw [if_pos hx]

theorem C8_rounding_half_up_witness :
    jsRound (5/2) = specRoundHalfAwayFromZero (5/2) :=
  (C8_rounding_half_up ⟨0, 0, 0⟩ 0 0 (5/2) (by norm_num)).2.2.2.2

theorem five_halves_mkRat : (5/2 : ℚ) = mkRat 5 2 := by
  rw [Rat.mkRat_eq_divInt, Rat.divInt_eq_div]
  norm_num

theorem eval_c9_days : (intervalOfString "2.5 days").days = 5/2 := by
  rw [five_halves_mkRat]
  decide

theorem eval_c9_norm : (getStorage (intervalOfString "2.5 days")).days = 5/2 := by
  rw [five_halves_mkRat]
  decide

/-- C9: the integer-field invariant fails on the code.  The value
constructed from the text "2.5 days" stores days = 5/2 (`addDays` does not
round), and its normalized snapshot from `getStorage` also carries
days = 5/2, which is not an integer (denominator 2). -/
theorem C9_integer_invariant_failure :
    (intervalOfString "2.5 days").days = 5/2 ∧
    (getStorage (intervalOfString "2.5 days")).days = 5/2 ∧
    ((5 : ℚ)/2).den = 2 := by
  refine ⟨eval_c9_days, eval_c9_norm, ?_⟩
  rw [five_halves_mkRat]
  decide

theorem eval_c7_zero : toPostgresString (intervalOfString "0 seconds") = "00:00:00" := by
  decide

theorem eval_c7_micro : toPostgresString ⟨0, 0, 123000⟩ = "00:00:00.123000" := by
  decide

/-- C7: the value constructed from "0 seconds" renders exactly "00:00:00"
(the time part is forced when months and days are both zero), a normalized
value with 123000 remaining microseconds renders as "00:00:00.123000",
and in general whenever the (whole-number) microsecond value handed to
`appendTime` has a non-zero sub-second remainder, the emitted time string
ends in '.' followed by the remainder zero-padded to EXACTLY six digits,
with no trimming of trailing zeros. -/
theorem C7_formatter_zero_and_padding (m : ℕ) (hm : m % 1000000 ≠ 0) (force : Bool) :
    toPostgresString (intervalOfString "0 seconds") = "00:00:00" ∧
    toPostgresString ⟨0, 0, 123000⟩ = "00:00:00.123000" ∧
    ∃ pre, appendTime (m : ℚ) force =
        some (pre ++ '.' :: padStartChars 6 '0' (natToChars (m % 1000000))) ∧
      (padStartChars 6 '0' (natToChars (m % 1000000))).length = 6 := by
  refine ⟨eval_c7_zero, eval_c7_micro, ?_⟩
  have hm0 : m ≠ 0 := by
    intro h
    subst h
    simp at hm
  have hq0 : ((m : ℚ)) ≠ 0 := Nat.cast_ne_zero.mpr hm0
  have hrem : (decomposeTime (m : ℚ)).remainingMicros = ((m % 1000000 : ℕ) : ℚ) :=
    decomposeTime_natCast_remaining m
  have hpos : (0 : ℚ) < (decomposeTime (m : ℚ)).remainingMicros := by
    rw [hrem]
    exact_mod_cast Nat.pos_of_ne_zero hm
  refine ⟨(if (decomposeTime ((m : ℕ) : ℚ)).isNegative then ['-'] else []) ++
      padStartChars 2 '0' (intToChars (decomposeTime ((m : ℕ) : ℚ)).hours) ++
      ':' :: padStartChars 2 '0' (intToChars (decomposeTime ((m : ℕ) : ℚ)).minutes) ++
      ':' :: padStartChars 2 '0' (intToChars (decomposeTime ((m : ℕ) : ℚ)).seconds), ?_, ?_⟩
  · unfold appendTime
    rw [if_neg (by intro hcon; exact hq0 hcon.1)]
    simp only []
    rw [if_pos hpos]
    rw [hrem, ratToChars_natCast]
  · have hlt : m % 1000000 < 10 ^ 6 := by
      have := Nat.mod_lt m (show 0 < 1000000 by norm_num)
      omega
    have hle := natToChars_length_le hlt (by norm_num)
    unfold padStartChars
    rw [List.length_append, List.length_replicate]
    omega

theorem C7_formatter_witness :
    ∃ pre, appendTime ((123000 : ℕ) : ℚ) true =
        some (pre ++ '.' :: padStartChars 6 '0' (natToChars (123000 % 1000000))) ∧
      (padStartChars 6 '0' (natToChars (123000 % 1000000))).length = 6 :=
  (C7_formatter_zero_and_padding 123000 (by decide) true).2.2

/-- C10: for every storage value the normalized microseconds is
non-negative, and below one day's worth of microseconds whenever the
stored microseconds is an integer (the bound in fact holds
unconditionally); consequently `decomposeTime`'s negative flag is false on
the rendering path, and the time part `toPostgresString` obtains from
`appendTime` never begins with a '-' sign. -/
theorem C10_normalized_micro_time_part (st : IntervalStorage) :
    0 ≤ (normalizeStorage st).microseconds ∧
    ((normalizeStorage st).microseconds.den = 1 →
      (normalizeStorage st).microseconds < MICROSECONDS_PER_DAY) ∧
    (decomposeTime (normalizeStorage st).microseconds).isNegative = false ∧
    (∀ (force : Bool) (s : List Char),
      appendTime (normalizeStorage st).microseconds force = some s →
        s.head? ≠ some '-') := by
  obtain ⟨h0, hlt⟩ := normalizeStorage_micro_bounds st
  have hnegflag : (decomposeTime (normalizeStorage st).microseconds).isNegative = false := by
    unfold decomposeTime
    simp only [decide_eq_false_iff_not]
    exact not_lt.mpr h0
  have hhours : 0 ≤ (decomposeTime (normalizeStorage st).microseconds).hours := by
    show 0 ≤ jsFloor (ratDiv (ratAbs (normalizeStorage st).microseconds) MICROSECONDS_PER_HOUR)
    rw [ratDiv_eq, ratAbs_eq]
    unfold jsFloor
    refine Int.floor_nonneg.mpr (div_nonneg (abs_nonneg _) ?_)
    rw [unfolded_constants.2.1]
    norm_num
  refine ⟨h0, fun _ => hlt, hnegflag, ?_⟩
  intro force s hs
  unfold appendTime at hs
  by_cases hcond : (normalizeStorage st).microseconds = 0 ∧ force = false
  · rw [if_pos hcond] at hs
    cases hs
  · rw [if_neg hcond] at hs
    have hs' := Option.some.inj hs
    rw [← hs', hnegflag]
    simp only [Bool.false_eq_true, if_false, List.nil_append, List.append_assoc,
      List.cons_append]
    exact padStart_intToChars_head_ne_dash hhours _

theorem C10_normalized_micro_time_part_witness :
    0 ≤ (normalizeStorage ⟨0, 0, -1⟩).microseconds ∧
      (normalizeStorage ⟨0, 0, -1⟩).microseconds < MICROSECONDS_PER_DAY :=
  ⟨(C10_normalized_micro_time_part ⟨0, 0, -1⟩).1,
    (C10_normalized_micro_time_part ⟨0, 0, -1⟩).2.1 (by decide)⟩

end PGInterval
